import Mathlib

/-!
Verification development for the coinbot purchase flow (src/coinbot.py).

Shallow embedding conventions: Python strings are lists of characters,
Python floats are rationals (the numeric literals of the source are exactly
representable and only compared or combined linearly), Python ints are
integers, and the JSON user store (a dict keyed by the user id) is an
association list.  A handler that can raise an unhandled exception returns
an `Option`, with `none` for the raised exception.
-/

namespace Coinbot

abbrev Str : Type := List Char

/-- Python's truncating conversion `int()` applied to a rational. -/
def pyInt (q : ℚ) : Int := if q < 0 then Int.ceil q else Int.floor q

/-- The fixed deposit address (line 44). -/
def DEPOSIT_ADDRESS : Str := "5H5xeKUt1wh5SE8hSJbnh9tsdVgZrUrbGffQjD9HTE9E".data

/-- 0.1 SOL for each successful referral (line 49). -/
def REFERRAL_BONUS : ℚ := 1/10

/-- 100 loyalty points per SOL spent (line 50). -/
def POINTS_PER_SOL : ℚ := 100

/-- 0.01 SOL per point (line 51). -/
def POINTS_REDEMPTION_RATE : ℚ := 1/100

/-! ### On-chain model and verify_payment (lines 153-170) -/

/-- The balances part of a fetched transaction (`tx_details.transaction.meta`). -/
structure TxMeta where
  pre_balances : List Int
  post_balances : List Int
deriving DecidableEq

/-- A fetched transaction detail: participant addresses and, when present,
its meta.  `meta = none` models `tx_details.transaction.meta` being falsy. -/
structure TxDetail where
  account_keys : List Str
  meta : Option TxMeta
deriving DecidableEq

/-- The balance delta of the deposit address in one transaction (lines
163-164): `none` when the meta is absent, the deposit address is not among
`account_keys` (Python `ValueError`), or the located index is out of range
of the balance lists (Python `IndexError`) -- each of which the source
skips with `continue`. -/
def txDelta (t : TxDetail) : Option Int :=
  match t.meta with
  | none => none
  | some m =>
    match t.account_keys.findIdx? (fun a => decide (a = DEPOSIT_ADDRESS)) with
    | none => none
    | some idx =>
      match m.post_balances[idx]?, m.pre_balances[idx]? with
      | some post, some pre => some (post - pre)
      | _, _ => none

/-- One transaction's match test (line 164): the delta at the deposit
address is within the source's hard-coded lamport window, strict `< 1000`.
A `none` entry models `get_transaction` returning a falsy value. -/
def txMatches (expected : Int) (tx : Option TxDetail) : Bool :=
  match tx with
  | none => false
  | some t =>
    match txDelta t with
    | none => false
    | some d => decide ((d - expected).natAbs < 1000)

/-- The scan over the fetched signatures (lines 158-167): return `true` at
the first matching transaction, `false` when the list is exhausted (also
covering `if not signatures: return False`). -/
def scanTxs (expected : Int) : List (Option TxDetail) → Bool
  | [] => false
  | tx :: rest => if txMatches expected tx then true else scanTxs expected rest

/-- `verify_payment` (lines 153-170) for one poll: the argument is the
fetched window of recent transactions, `none` when the RPC collaborator
raised (the `except` of line 168 logs it and the function returns `False`). -/
def verify_payment (fetch : Option (List (Option TxDetail))) (expected : Int) : Bool :=
  match fetch with
  | none => false
  | some txs => scanTxs expected txs

/-- The polling loop of `process_payment` (lines 386-392), generalised from
`range(3)` and `sleep(10)` to `range(n)` and `sleep(delay)`: attempt `i`
queries the oracle; a failed attempt sleeps `delay` and continues.  Returns
(found, attempts made, total time slept).  In the source `n = 3` and
`delay = 10`. -/
def pollPayments (oracle : Nat → Bool) (delay : Nat) : Nat → Nat → Bool × Nat × Nat
  | 0, _ => (false, 0, 0)
  | n + 1, i =>
    if oracle i then (true, 1, 0)
    else
      let r := pollPayments oracle delay n (i + 1)
      (r.1, r.2.1 + 1, r.2.2 + delay)

/-! ### Loyalty ledger (lines 47-101) -/

/-- One user's durable loyalty record (the JSON object of lines 68-74).
`last_service` is a wall-clock timestamp and is not part of the model. -/
structure Account where
  points : Int
  referrals : Nat
  total_spent : ℚ
  discount_available : Bool
deriving DecidableEq

/-- The zero-valued record created on first access (lines 68-74). -/
def freshAccount : Account :=
  { points := 0, referrals := 0, total_spent := 0, discount_available := false }

/-- The user store: the JSON dict keyed by user id. -/
abbrev Users := List (Nat × Account)

/-- Dict lookup, defaulting to the zero record the source would create. -/
def lookupUser : Users → Nat → Account
  | [], _ => freshAccount
  | (k, v) :: rest, uid => if k = uid then v else lookupUser rest uid

/-- Dict assignment `users[user_id_str] = a`. -/
def setUser : Users → Nat → Account → Users
  | [], uid, a => [(uid, a)]
  | (k, v) :: rest, uid, a =>
    if k = uid then (uid, a) :: rest else (k, v) :: setUser rest uid a

/-- Dict membership `user_id_str in users`. -/
def hasUser : Users → Nat → Bool
  | [], _ => false
  | (k, _) :: rest, uid => if k = uid then true else hasUser rest uid

/-- The store effect of `get_user_data` (lines 64-76): create the
zero-valued record on first access. -/
def ensureUser (users : Users) (uid : Nat) : Users :=
  if hasUser users uid then users else setUser users uid freshAccount

/-- The per-record part of `update_user_data` (lines 90-98): apply the
deltas, then re-evaluate the discount flag (lines 96-98): set it when
`referrals >= 3 or total_spent >= 10`, leave it as it was otherwise. -/
def applyDeltas (a : Account) (points : Int) (spent : ℚ) (referral : Bool) : Account :=
  let a1 : Account :=
    { a with
      points := a.points + points
      total_spent := a.total_spent + spent
      referrals := a.referrals + (if referral then 1 else 0) }
  { a1 with
    discount_available :=
      if 3 ≤ a1.referrals ∨ 10 ≤ a1.total_spent then true else a1.discount_available }

/-- `update_user_data` (lines 78-101): create the record if missing, apply
the deltas, re-evaluate the discount flag, save. -/
def update_user_data (users : Users) (uid : Nat) (points : Int) (spent : ℚ)
    (referral : Bool) : Users :=
  setUser users uid (applyDeltas (lookupUser users uid) points spent referral)

/-! ### Pricing (lines 313-327), sessions and the payment handler -/

/-- A catalog package as the handlers use it: display name and SOL price. -/
structure Package where
  name : Str
  price_sol : ℚ
deriving DecidableEq

/-- (final price, points used) as computed in `select_package`
(lines 316-324): the unlocked 10% discount wins, otherwise positive points
are redeemed at `POINTS_REDEMPTION_RATE` capped at half the base price. -/
structure PriceResult where
  final_price : ℚ
  points_used : Int
deriving DecidableEq

def computePrice (base_price : ℚ) (a : Account) : PriceResult :=
  if a.discount_available then
    { final_price := base_price * (9/10), points_used := 0 }
  else if 0 < a.points then
    let max_discount := min ((a.points : ℚ) * POINTS_REDEMPTION_RATE) (base_price * (1/2))
    { final_price := base_price - max_discount
      points_used := pyInt (max_discount / POINTS_REDEMPTION_RATE) }
  else
    { final_price := base_price, points_used := 0 }

/-- The relevant slice of `context.user_data` for the payment step. -/
structure SessionData where
  package : Option Package
  final_price : Option ℚ
  points_used : Option Int
deriving DecidableEq

/-- `select_package`'s session effect (lines 310-327): record the chosen
package and the computed final price and points reservation.  (The callback
token parsing that precedes it is messaging-transport glue, outside the
embedded core.) -/
def select_package (users : Users) (uid : Nat) (pkg : Package) (sd : SessionData) :
    SessionData :=
  let pr := computePrice pkg.price_sol (lookupUser users uid)
  { sd with
    package := some pkg
    final_price := some pr.final_price
    points_used := some pr.points_used }

/-- `process_payment` on the payment-confirmation trigger (lines 350-441).
Returns `none` when the handler raises: line 360 evaluates the `get`
default `package['price_sol']` eagerly, a `TypeError` whenever `package`
is absent.  Otherwise returns the user store after the handler and the
`payment_found` outcome.  `fetches` gives each polling attempt's fetched
window (`none` = RPC failure inside `verify_payment`). -/
def process_payment (users : Users) (uid : Nat) (sd : SessionData)
    (fetches : Nat → Option (List (Option TxDetail))) : Option (Users × Bool) :=
  match sd.package with
  | none => none
  | some pkg =>
    let final_price := sd.final_price.getD pkg.price_sol
    let points_used := sd.points_used.getD 0
    let expected := pyInt (final_price * 1000000000)
    let r := pollPayments (fun i => verify_payment (fetches i) expected) 10 3 0
    if r.1 then
      let points_earned := pyInt (final_price * POINTS_PER_SOL)
      let users1 :=
        if 0 < points_used then update_user_data users uid (-points_used) 0 false
        else users
      let users2 := update_user_data users1 uid points_earned final_price false
      -- execute_service (lines 172-184) updates the ledger again
      let users3 :=
        update_user_data users2 uid (pyInt (pkg.price_sol * POINTS_PER_SOL)) pkg.price_sol false
      some (users3, true)
    else
      some (users, false)

/-! ### The start handler's referral path (lines 187-197) -/

/-- The four characters every referral token starts with. -/
def refTag : Str := "ref_".data

/-- Decimal spelling of a user id, as `str(user.id)` produces it. -/
def natToStr (n : Nat) : Str := (Nat.repr n).data

/-- Python `int()` on the token remainder: the digits value, or `none`
(the raised `ValueError`) when the text is not a digit string. -/
def strToNat? (s : Str) : Option Nat :=
  if s ≠ [] ∧ s.all (fun c => c.isDigit) then
    some (s.foldl (fun n c => n * 10 + (c.toNat - 48)) 0)
  else none

/-- The referral block of `start` (lines 193-197): when the first argument
starts with `ref_`, the remainder is nonempty and differs from the starting
user's own id string, credit the referrer with one referral and the starting
user with the referral bonus points. -/
def startReferral (users : Users) (uid : Nat) (arg : Str) : Option Users :=
  if arg.take 4 = refTag then
    let referrer_id := arg.drop 4
    if referrer_id ≠ [] ∧ referrer_id ≠ natToStr uid then
      match strToNat? referrer_id with
      | none => none
      | some rid =>
        some (update_user_data (update_user_data users rid 0 0 true) uid
          (pyInt (REFERRAL_BONUS * POINTS_PER_SOL)) 0 false)
    else some users
  else some users

/-- The store effect of the `start` handler (lines 187-197):
`get_user_data` creates the record, then the referral block may run. -/
def start (users : Users) (uid : Nat) (args : List Str) : Option Users :=
  let users0 := ensureUser users uid
  match args with
  | [] => some users0
  | arg :: _ => startReferral users0 uid arg

/-! ### The ledger-mutating events of the conversation engine -/

/-- The inbound events whose handlers touch the loyalty store: a `/start`
(with its arguments) and a payment confirmation (with the session's data
and the per-attempt fetch results). -/
inductive Event where
  | startEv (uid : Nat) (args : List Str)
  | confirmPay (uid : Nat) (sd : SessionData)
      (fetches : Nat → Option (List (Option TxDetail)))

/-- One engine step on the user store; `none` when the handler raises. -/
def step (users : Users) : Event → Option Users
  | .startEv uid args => start users uid args
  | .confirmPay uid sd fetches => (process_payment users uid sd fetches).map Prod.fst

/-- C5's property as the claim states it: across every step, a user's
points grow only on that user's payment-confirmation event. -/
def PointsOnlyFromPurchase : Prop :=
  ∀ (users : Users) (e : Event) (users' : Users), step users e = some users' →
    ∀ uid : Nat, (lookupUser users uid).points < (lookupUser users' uid).points →
      ∃ sd fetches, e = Event.confirmPay uid sd fetches

/-- C10's property as the claim states it: a start whose referral token
embeds the starting user's own identifier changes no referral count and no
points on any account. -/
def SelfReferralRejected : Prop :=
  ∀ (users : Users) (uid : Nat) (s : Str) (users' : Users),
    strToNat? s = some uid →
    start users uid [refTag ++ s] = some users' →
    ∀ v : Nat, (lookupUser users' v).referrals = (lookupUser users v).referrals ∧
      (lookupUser users' v).points = (lookupUser users v).points

/-! ### Store lemmas -/

theorem lookup_set_self (us : Users) (uid : Nat) (a : Account) :
    lookupUser (setUser us uid a) uid = a := by
  induction us with
  | nil => simp [setUser, lookupUser]
  | cons hd tl ih =>
    obtain ⟨k, v⟩ := hd
    by_cases h : k = uid
    · simp [setUser, lookupUser, h]
    · simp [setUser, lookupUser, h, ih]

theorem lookup_set_ne (us : Users) (uid v : Nat) (a : Account) (h : v ≠ uid) :
    lookupUser (setUser us uid a) v = lookupUser us v := by
  have huv : uid ≠ v := Ne.symm h
  induction us with
  | nil => simp [setUser, lookupUser, huv]
  | cons hd tl ih =>
    obtain ⟨k, w⟩ := hd
    by_cases hk : k = uid
    · subst hk
      simp [setUser, lookupUser, huv]
    · simp [setUser, lookupUser, hk, ih]

theorem lookup_of_not_hasUser (us : Users) (uid : Nat) (h : hasUser us uid = false) :
    lookupUser us uid = freshAccount := by
  induction us with
  | nil => rfl
  | cons hd tl ih =>
    obtain ⟨k, v⟩ := hd
    by_cases hk : k = uid
    · simp [hasUser, hk] at h
    · simp [hasUser, hk] at h
      simp [lookupUser, hk, ih h]

theorem lookup_ensure (us : Users) (uid v : Nat) :
    lookupUser (ensureUser us uid) v = lookupUser us v := by
  unfold ensureUser
  by_cases h : hasUser us uid
  · simp [h]
  · simp only [h, Bool.false_eq_true, if_false]
    by_cases hv : v = uid
    · subst hv
      rw [lookup_set_self, lookup_of_not_hasUser us v (by simpa using h)]
    · exact lookup_set_ne us uid v freshAccount hv

theorem lookup_update_self (us : Users) (uid : Nat) (p : Int) (s : ℚ) (r : Bool) :
    lookupUser (update_user_data us uid p s r) uid =
      applyDeltas (lookupUser us uid) p s r :=
  lookup_set_self us uid _

theorem lookup_update_ne (us : Users) (uid v : Nat) (p : Int) (s : ℚ) (r : Bool)
    (h : v ≠ uid) :
    lookupUser (update_user_data us uid p s r) v = lookupUser us v :=
  lookup_set_ne us uid v _ h

theorem applyDeltas_points (a : Account) (p : Int) (s : ℚ) (r : Bool) :
    (applyDeltas a p s r).points = a.points + p := rfl

theorem applyDeltas_referrals (a : Account) (p : Int) (s : ℚ) (r : Bool) :
    (applyDeltas a p s r).referrals = a.referrals + (if r then 1 else 0) := rfl

theorem applyDeltas_total_spent (a : Account) (p : Int) (s : ℚ) (r : Bool) :
    (applyDeltas a p s r).total_spent = a.total_spent + s := rfl

theorem applyDeltas_flag (a : Account) (p : Int) (s : ℚ) (r : Bool) :
    (applyDeltas a p s r).discount_available =
      (if 3 ≤ (applyDeltas a p s r).referrals ∨ 10 ≤ (applyDeltas a p s r).total_spent
       then true else a.discount_available) := rfl

theorem flag_mono_applyDeltas (a : Account) (p : Int) (s : ℚ) (r : Bool)
    (h : a.discount_available = true) :
    (applyDeltas a p s r).discount_available = true := by
  rw [applyDeltas_flag]
  split
  · rfl
  · exact h

theorem flag_mono_update (us : Users) (uid : Nat) (p : Int) (s : ℚ) (r : Bool) (v : Nat)
    (h : (lookupUser us v).discount_available = true) :
    (lookupUser (update_user_data us uid p s r) v).discount_available = true := by
  by_cases hv : v = uid
  · subst hv
    rw [lookup_update_self]
    exact flag_mono_applyDeltas _ _ _ _ h
  · rw [lookup_update_ne us uid v p s r hv]
    exact h

theorem pyInt_nonneg (q : ℚ) (h : 0 ≤ q) : 0 ≤ pyInt q := by
  unfold pyInt
  rw [if_neg (not_lt.mpr h)]
  exact Int.floor_nonneg.mpr h

/-! ### Shape lemmas for the two ledger-mutating handlers -/

theorem start_cases (users : Users) (uid : Nat) (args : List Str) (users' : Users)
    (h : start users uid args = some users') :
    users' = ensureUser users uid ∨
      ∃ rid : Nat, users' =
        update_user_data (update_user_data (ensureUser users uid) rid 0 0 true) uid
          (pyInt (REFERRAL_BONUS * POINTS_PER_SOL)) 0 false := by
  cases args with
  | nil =>
    simp only [start] at h
    left
    exact (Option.some_inj.mp h).symm
  | cons arg rest =>
    simp only [start, startReferral] at h
    split at h
    · split at h
      · split at h
        · exact absurd h (by simp)
        · right
          exact ⟨_, (Option.some_inj.mp h).symm⟩
      · left
        exact (Option.some_inj.mp h).symm
    · left
      exact (Option.some_inj.mp h).symm

theorem process_payment_cases (users : Users) (uid : Nat) (sd : SessionData)
    (fetches : Nat → Option (List (Option TxDetail))) (users' : Users) (found : Bool)
    (h : process_payment users uid sd fetches = some (users', found)) :
    (found = false ∧ users' = users) ∨
      (found = true ∧ ∃ pkg : Package, sd.package = some pkg ∧
        users' =
          update_user_data
            (update_user_data
              (if 0 < sd.points_used.getD 0 then
                update_user_data users uid (-(sd.points_used.getD 0)) 0 false
               else users)
              uid (pyInt (sd.final_price.getD pkg.price_sol * POINTS_PER_SOL))
              (sd.final_price.getD pkg.price_sol) false)
            uid (pyInt (pkg.price_sol * POINTS_PER_SOL)) pkg.price_sol false) := by
  unfold process_payment at h
  cases hp : sd.package with
  | none => rw [hp] at h; exact absurd h (by simp)
  | some pkg =>
    rw [hp] at h
    simp only at h
    split at h
    · right
      obtain ⟨h1, h2⟩ := Prod.mk.injEq .. ▸ Option.some_inj.mp h
      exact ⟨h2.symm, pkg, rfl, h1.symm⟩
    · left
      obtain ⟨h1, h2⟩ := Prod.mk.injEq .. ▸ Option.some_inj.mp h
      exact ⟨h2.symm, h1.symm⟩

theorem txMatches_iff (E : Int) (tx : Option TxDetail) :
    txMatches E tx = true ↔
      ∃ t, tx = some t ∧ ∃ d, txDelta t = some d ∧ (d - E).natAbs ≤ 999 := by
  cases tx with
  | none => simp [txMatches]
  | some t =>
    cases h : txDelta t with
    | none => simp [txMatches, h]
    | some d =>
      simp [txMatches, h]
      omega

theorem pollPayments_spec (o : Nat → Bool) (d : Nat) :
    ∀ (n s : Nat),
      ((pollPayments o d n s).1 = false → (pollPayments o d n s).2.1 = n) ∧
      (pollPayments o d n s).2.1 ≤ n ∧ (pollPayments o d n s).2.2 ≤ n * d := by
  intro n
  induction n with
  | zero => intro s; simp [pollPayments]
  | succ n ih =>
    intro s
    by_cases h : o s
    · simp [pollPayments, h]
    · have hrec := ih (s + 1)
      simp only [pollPayments, h, Bool.false_eq_true, if_false]
      refine ⟨fun hf => by rw [hrec.1 hf], by omega, ?_⟩
      calc (pollPayments o d n (s + 1)).2.2 + d ≤ n * d + d :=
            Nat.add_le_add_right hrec.2.2 d
        _ = (n + 1) * d := (Nat.succ_mul n d).symm

/-! ### Claim theorems -/

/-- C1: one invocation of `verify_payment` over fetched transactions with
expected amount `E` returns `true` if and only if some fetched transaction
carries a balance delta `d = postBalance - preBalance` at the deposit
address's index with `|d - E|` within the tolerance (the source's strict
`< 1000` lamports, i.e. tolerance 999 on integer amounts); transactions
where the deposit address is absent contribute nothing (`txDelta = none`),
and the recursive scan returns at the first match. -/
theorem verify_payment_true_iff (txs : List (Option TxDetail)) (E : Int) :
    verify_payment (some txs) E = true ↔
      ∃ tx ∈ txs, ∃ t, tx = some t ∧ ∃ d, txDelta t = some d ∧ (d - E).natAbs ≤ 999 := by
  show scanTxs E txs = true ↔ _
  induction txs with
  | nil => simp [scanTxs]
  | cons hd tl ih =>
    by_cases h : txMatches E hd = true
    · constructor
      · intro _
        obtain ⟨t, ht, rest⟩ := (txMatches_iff E hd).mp h
        exact ⟨hd, List.mem_cons_self hd tl, t, ht, rest⟩
      · intro _
        simp [scanTxs, h]
    · have hs : scanTxs E (hd :: tl) = scanTxs E tl := by
        simp [scanTxs, h]
      rw [hs, ih]
      constructor
      · rintro ⟨tx, htx, rest⟩
        exact ⟨tx, List.mem_cons_of_mem hd htx, rest⟩
      · rintro ⟨tx, htx, rest⟩
        rcases List.mem_cons.mp htx with heq | htl
        · subst heq
          exact absurd ((txMatches_iff E tx).mpr rest) h
        · exact ⟨tx, htl, rest⟩

/-- C3: the pricing calculator of `select_package`: an unlocked discount
gives `0.9 * base` using no points; otherwise positive points give
`base - min(points * rate, base / 2)` consuming `floor(discount / rate)`
points; otherwise the base price stands; the two discount paths are
mutually exclusive by construction, the final price is never negative, and
the 40-point, 0.5-SOL instance gives final price 0.25 and 25 points used. -/
theorem computePrice_spec (b : ℚ) (hb : 0 ≤ b) (a : Account) :
    (a.discount_available = true →
      computePrice b a = { final_price := b * (9/10), points_used := 0 }) ∧
    (a.discount_available = false → 0 < a.points →
      computePrice b a =
        { final_price := b - min ((a.points : ℚ) * POINTS_REDEMPTION_RATE) (b * (1/2))
          points_used :=
            Int.floor (min ((a.points : ℚ) * POINTS_REDEMPTION_RATE) (b * (1/2)) /
              POINTS_REDEMPTION_RATE) }) ∧
    (a.discount_available = false → a.points ≤ 0 →
      computePrice b a = { final_price := b, points_used := 0 }) ∧
    0 ≤ (computePrice b a).final_price ∧
    computePrice (1/2)
        { points := 40, referrals := 0, total_spent := 0, discount_available := false } =
      { final_price := 1/4, points_used := 25 } := by
  refine ⟨?_, ?_, ?_, ?_, ?_⟩
  · intro hf
    simp [computePrice, hf]
  · intro hf hp
    have hmin : 0 ≤ min ((a.points : ℚ) * POINTS_REDEMPTION_RATE) (b * (1/2)) := by
      apply le_min
      · have hc : (0:ℚ) ≤ (a.points : ℚ) := by exact_mod_cast hp.le
        exact mul_nonneg hc (by norm_num [POINTS_REDEMPTION_RATE])
      · exact mul_nonneg hb (by norm_num)
    have hdiv : 0 ≤ min ((a.points : ℚ) * POINTS_REDEMPTION_RATE) (b * (1/2)) /
        POINTS_REDEMPTION_RATE :=
      div_nonneg hmin (by norm_num [POINTS_REDEMPTION_RATE])
    have hq : pyInt (min ((a.points : ℚ) * POINTS_REDEMPTION_RATE) (b * (1/2)) /
        POINTS_REDEMPTION_RATE) =
        Int.floor (min ((a.points : ℚ) * POINTS_REDEMPTION_RATE) (b * (1/2)) /
          POINTS_REDEMPTION_RATE) := by
      unfold pyInt
      rw [if_neg (not_lt.mpr hdiv)]
    simp [computePrice, hf, hp]
    simpa using hq
  · intro hf hp
    simp [computePrice, hf, not_lt.mpr hp]
  · unfold computePrice
    split_ifs with h1 h2
    · dsimp only
      exact mul_nonneg hb (by norm_num)
    · dsimp only
      have h3 : min ((a.points : ℚ) * POINTS_REDEMPTION_RATE) (b * (1/2)) ≤ b * (1/2) :=
        min_le_right _ _
      linarith
    · exact hb
  · norm_num [computePrice, POINTS_REDEMPTION_RATE, pyInt, min_def]

/-- C3 witness: the hypothesis `0 ≤ b` discharged at `b = 1` and a fresh
account; the extracted conjunct evaluates the calculator there. -/
theorem computePrice_spec_witness : 0 ≤ (computePrice 1 freshAccount).final_price :=
  (computePrice_spec 1 (by norm_num) freshAccount).2.2.2.1

/-- C7: the polling loop makes exactly `n` polls before returning a
negative result (no more, no fewer), never makes more than `n` polls, its
total sleep is bounded by `n * delay`, and an RPC collaborator failure
(`fetch = none`) is a plain non-match for its attempt.  The source runs it
with `n = 3`, `delay = 10`. -/
theorem poll_termination_spec (fetches : Nat → Option (List (Option TxDetail)))
    (E : Int) (n d s : Nat) :
    ((pollPayments (fun i => verify_payment (fetches i) E) d n s).1 = false →
      (pollPayments (fun i => verify_payment (fetches i) E) d n s).2.1 = n) ∧
    (pollPayments (fun i => verify_payment (fetches i) E) d n s).2.1 ≤ n ∧
    (pollPayments (fun i => verify_payment (fetches i) E) d n s).2.2 ≤ n * d ∧
    verify_payment none E = false := by
  obtain ⟨h1, h2, h3⟩ := pollPayments_spec (fun i => verify_payment (fetches i) E) d n s
  exact ⟨h1, h2, h3, rfl⟩

/-- C9: a payment verification that exhausts its attempts without a match
(outcome `false`) returns the user store exactly as it received it: no
loyalty field of any account is mutated on the failure path. -/
theorem verification_failure_frame (users : Users) (uid : Nat) (sd : SessionData)
    (fetches : Nat → Option (List (Option TxDetail))) (users' : Users)
    (h : process_payment users uid sd fetches = some (users', false)) :
    users' = users := by
  rcases process_payment_cases users uid sd fetches users' false h with ⟨_, h2⟩ | ⟨hf, _⟩
  · exact h2
  · exact absurd hf (by simp)

/-- C9 witness: a session whose three polls all hit RPC failures ends with
outcome `false` and the one-account store returned unchanged. -/
theorem verification_failure_frame_witness :
    ([(1, freshAccount)] : Users) = [(1, freshAccount)] :=
  verification_failure_frame [(1, freshAccount)] 1
    { package := some { name := "x".data, price_sol := 1 }, final_price := some 1,
      points_used := some 0 }
    (fun _ => none) [(1, freshAccount)]
    (by norm_num [process_payment, pollPayments, verify_payment])

/-- C8: after a ledger update the deltas are applied and the discount flag
is re-evaluated: the new flag is the old flag or-ed with the condition
`referrals >= 3 or total_spent >= 10` over the updated record (so from a
false flag it becomes true exactly when the condition holds after the
deltas); and across every engine step the flag is monotone: once true for
a user it stays true. -/
theorem discount_unlock_spec (users : Users) (uid : Nat) :
    (∀ (p : Int) (s : ℚ) (r : Bool),
      (lookupUser (update_user_data users uid p s r) uid).referrals =
        (lookupUser users uid).referrals + (if r then 1 else 0) ∧
      (lookupUser (update_user_data users uid p s r) uid).total_spent =
        (lookupUser users uid).total_spent + s ∧
      (lookupUser (update_user_data users uid p s r) uid).discount_available =
        ((lookupUser users uid).discount_available ||
          decide (3 ≤ (lookupUser (update_user_data users uid p s r) uid).referrals ∨
            10 ≤ (lookupUser (update_user_data users uid p s r) uid).total_spent))) ∧
    (∀ (e : Event) (users' : Users), step users e = some users' →
      (lookupUser users uid).discount_available = true →
      (lookupUser users' uid).discount_available = true) := by
  constructor
  · intro p s r
    rw [lookup_update_self]
    refine ⟨applyDeltas_referrals _ _ _ _, applyDeltas_total_spent _ _ _ _, ?_⟩
    rw [applyDeltas_flag]
    by_cases hc : 3 ≤ (applyDeltas (lookupUser users uid) p s r).referrals ∨
        10 ≤ (applyDeltas (lookupUser users uid) p s r).total_spent
    · rw [if_pos hc]
      simp [hc]
    · rw [if_neg hc]
      simp [hc]
  · intro e users' hstep hflag
    cases e with
    | startEv u args =>
      rcases start_cases users u args users' hstep with h | ⟨rid, h⟩
      · rw [h, lookup_ensure]
        exact hflag
      · subst h
        apply flag_mono_update
        apply flag_mono_update
        rw [lookup_ensure]
        exact hflag
    | confirmPay u sd fetches =>
      simp only [step] at hstep
      cases hp : process_payment users u sd fetches with
      | none =>
        rw [hp] at hstep
        exact absurd hstep (by simp)
      | some pr =>
        rw [hp, Option.map_some'] at hstep
        have hu : pr.1 = users' := Option.some_inj.mp hstep
        obtain ⟨w, fnd⟩ := pr
        rcases process_payment_cases users u sd fetches w fnd hp with ⟨_, h2⟩ | ⟨_, pkg, _, h2⟩
        · rw [← hu]
          dsimp only at h2 ⊢
          rw [h2]
          exact hflag
        · rw [← hu]
          dsimp only at h2 ⊢
          rw [h2]
          apply flag_mono_update
          apply flag_mono_update
          by_cases hpu : 0 < sd.points_used.getD 0
          · rw [if_pos hpu]
            exact flag_mono_update _ _ _ _ _ _ hflag
          · rw [if_neg hpu]
            exact hflag

/-- C2 (code behaviour at the claim's scenario): a fresh account (user 7)
buying the 0.5-SOL package, with the matching transaction appearing on the
second poll, ends with points 100 and total_spent 1, because the loyalty
update runs twice on the success path (once in `process_payment`, once
again inside `execute_service`).  The claim's single application would give
points 50 and total_spent 0.5. -/
theorem process_payment_double_credit :
    (process_payment [] 7
      (select_package [] 7 { name := "50 Holders".data, price_sol := 1/2 }
        { package := none, final_price := none, points_used := none })
      (fun i => if i = 0 then some [] else
        some [some { account_keys := [DEPOSIT_ADDRESS],
                     meta := some { pre_balances := [0], post_balances := [500000000] } }])).map
      (fun p => (lookupUser p.1 7, p.2))
      = some ({ points := 100, referrals := 0, total_spent := 1, discount_available := false },
          true) := by
  norm_num [process_payment, select_package, computePrice, lookupUser, freshAccount,
    pollPayments, verify_payment, scanTxs, txMatches, txDelta, update_user_data, applyDeltas,
    setUser, pyInt, POINTS_PER_SOL, POINTS_REDEMPTION_RATE]

/-- C4 (code behaviour): a payment-confirmation that arrives while the
session holds no package selection makes the handler raise: line 360
evaluates the `get` default `package['price_sol']` with `package = None`
(`TypeError`), so no session-expired report is produced, no verification
runs, and no account is mutated (the handler dies before any store write). -/
theorem process_payment_missing_session_raises (users : Users) (uid : Nat)
    (fetches : Nat → Option (List (Option TxDetail))) :
    process_payment users uid
      { package := none, final_price := none, points_used := none } fetches = none := rfl

/-- C5 counterexample: a `/start` carrying referral token `ref_5` raises
user 7's points from 0 to 10 although the event is no payment
confirmation, refuting the claim that points only increase on a verified
purchase. -/
theorem points_only_from_purchase_false : ¬ PointsOnlyFromPurchase := by
  intro h
  obtain ⟨sd, f, he⟩ :=
    h [] (Event.startEv 7 [refTag ++ natToStr 5])
      [(7, { points := 10, referrals := 0, total_spent := 0, discount_available := false }),
       (5, { points := 0, referrals := 1, total_spent := 0, discount_available := false })]
      (by
        have h5 : natToStr 5 = ['5'] := rfl
        have h7 : natToStr 7 = ['7'] := rfl
        have hc : ('5' : Char) ≠ '7' := by decide
        have hd : ('5' : Char).isDigit = true := by decide
        have ht : ('5' : Char).toNat - 48 = 5 := by decide
        norm_num [step, start, startReferral, ensureUser, hasUser, setUser, lookupUser,
          update_user_data, applyDeltas, freshAccount, strToNat?, h5, h7, hc, hd, ht,
          refTag, pyInt, REFERRAL_BONUS, POINTS_PER_SOL])
      7 (by norm_num [lookupUser, freshAccount])
  exact Event.noConfusion he

/-- C5 (amended): a user's points change only in that user's own `/start`
(the +10 referral bonus) or that user's payment confirmation; on the
verified-purchase path the change equals the earned points minus the
reservation `points_used` (deducted only when positive, within the same
handler invocation); the failure outcome returns the store untouched; and
with the reservation bounded by the account's points and nonnegative
session prices, points stay nonnegative. -/
theorem points_change_provenance (users : Users) (uid : Nat) :
    (∀ (u : Nat) (args : List Str) (users' : Users), start users u args = some users' →
      (lookupUser users' uid).points = (lookupUser users uid).points ∨
        (uid = u ∧ (lookupUser users' uid).points = (lookupUser users uid).points + 10)) ∧
    (∀ (u : Nat) (sd : SessionData) (fetches : Nat → Option (List (Option TxDetail)))
        (users' : Users) (found : Bool),
      process_payment users u sd fetches = some (users', found) →
      (found = false → users' = users) ∧
      (uid ≠ u → lookupUser users' uid = lookupUser users uid) ∧
      (∀ pkg : Package, sd.package = some pkg → found = true →
        ((lookupUser users' u).points =
          (lookupUser users u).points -
            (if 0 < sd.points_used.getD 0 then sd.points_used.getD 0 else 0) +
            pyInt (sd.final_price.getD pkg.price_sol * POINTS_PER_SOL) +
            pyInt (pkg.price_sol * POINTS_PER_SOL)) ∧
        (0 ≤ (lookupUser users u).points →
          sd.points_used.getD 0 ≤ (lookupUser users u).points →
          0 ≤ sd.final_price.getD pkg.price_sol → 0 ≤ pkg.price_sol →
          0 ≤ (lookupUser users' u).points))) := by
  have h10 : pyInt (REFERRAL_BONUS * POINTS_PER_SOL) = 10 := by
    norm_num [pyInt, REFERRAL_BONUS, POINTS_PER_SOL]
  constructor
  · intro u args users' hstart
    rcases start_cases users u args users' hstart with h | ⟨rid, h⟩
    · left
      rw [h, lookup_ensure]
    · subst h
      have hinner : ∀ v : Nat,
          (lookupUser (update_user_data (ensureUser users u) rid 0 0 true) v).points =
            (lookupUser users v).points := by
        intro v
        by_cases hr : v = rid
        · subst hr
          rw [lookup_update_self, applyDeltas_points, lookup_ensure, add_zero]
        · rw [lookup_update_ne _ _ _ _ _ _ hr, lookup_ensure]
      by_cases hu : uid = u
      · subst hu
        right
        refine ⟨rfl, ?_⟩
        rw [lookup_update_self, applyDeltas_points, h10, hinner uid]
      · left
        rw [lookup_update_ne _ _ _ _ _ _ hu, hinner uid]
  · intro u sd fetches users' found hproc
    refine ⟨?_, ?_, ?_⟩
    · intro hf
      subst hf
      rcases process_payment_cases users u sd fetches users' false hproc with ⟨_, h2⟩ | ⟨hf2, _⟩
      · exact h2
      · exact absurd hf2 (by simp)
    · intro hne
      rcases process_payment_cases users u sd fetches users' found hproc with ⟨_, h2⟩ |
          ⟨_, pkg, _, h2⟩
      · rw [h2]
      · subst h2
        rw [lookup_update_ne _ _ _ _ _ _ hne, lookup_update_ne _ _ _ _ _ _ hne]
        by_cases hpu : 0 < sd.points_used.getD 0
        · rw [if_pos hpu, lookup_update_ne _ _ _ _ _ _ hne]
        · rw [if_neg hpu]
    · intro pkg hpkg hfound
      subst hfound
      rcases process_payment_cases users u sd fetches users' true hproc with ⟨hf, _⟩ |
          ⟨_, pkg', hpkg', h2⟩
      · exact absurd hf (by simp)
      · rw [hpkg] at hpkg'
        have hpp : pkg' = pkg := Option.some_inj.mp hpkg'.symm
        subst hpp
        subst h2
        have heq : (lookupUser
            (update_user_data
              (update_user_data
                (if 0 < sd.points_used.getD 0 then
                  update_user_data users u (-(sd.points_used.getD 0)) 0 false
                 else users)
                u (pyInt (sd.final_price.getD pkg'.price_sol * POINTS_PER_SOL))
                (sd.final_price.getD pkg'.price_sol) false)
              u (pyInt (pkg'.price_sol * POINTS_PER_SOL)) pkg'.price_sol false) u).points =
            (lookupUser users u).points -
              (if 0 < sd.points_used.getD 0 then sd.points_used.getD 0 else 0) +
              pyInt (sd.final_price.getD pkg'.price_sol * POINTS_PER_SOL) +
              pyInt (pkg'.price_sol * POINTS_PER_SOL) := by
          rw [lookup_update_self, applyDeltas_points, lookup_update_self, applyDeltas_points]
          by_cases hpu : 0 < sd.points_used.getD 0
          · rw [if_pos hpu, if_pos hpu, lookup_update_self, applyDeltas_points]
            ring
          · rw [if_neg hpu, if_neg hpu]
            ring
        refine ⟨heq, ?_⟩
        intro hp0 hres hfp hpk
        have he1 : 0 ≤ pyInt (sd.final_price.getD pkg'.price_sol * POINTS_PER_SOL) :=
          pyInt_nonneg _ (mul_nonneg hfp (by norm_num [POINTS_PER_SOL]))
        have he2 : 0 ≤ pyInt (pkg'.price_sol * POINTS_PER_SOL) :=
          pyInt_nonneg _ (mul_nonneg hpk (by norm_num [POINTS_PER_SOL]))
        rw [heq]
        by_cases hpu : 0 < sd.points_used.getD 0
        · rw [if_pos hpu]
          linarith
        · rw [if_neg hpu]
          linarith

/-- C6 (code behaviour): the same referral token `ref_5`, presented by the
same user 7 on two consecutive `/start` events, is honored both times: the
referrer's referral count reaches 2 and user 7 holds 20 bonus points, with
no purchase occurring anywhere. -/
theorem referral_honored_twice :
    ((start [] 7 [refTag ++ natToStr 5]).bind
        (fun u1 => start u1 7 [refTag ++ natToStr 5])).map
      (fun u2 => ((lookupUser u2 5).referrals, (lookupUser u2 7).points)) = some (2, 20) := by
  have h5 : natToStr 5 = ['5'] := rfl
  have h7 : natToStr 7 = ['7'] := rfl
  have hc : ('5' : Char) ≠ '7' := by decide
  have hd : ('5' : Char).isDigit = true := by decide
  have ht : ('5' : Char).toNat - 48 = 5 := by decide
  norm_num [start, startReferral, ensureUser, hasUser, setUser, lookupUser, update_user_data,
    applyDeltas, freshAccount, strToNat?, h5, h7, hc, hd, ht, refTag, pyInt, REFERRAL_BONUS,
    POINTS_PER_SOL]

/-- C10 counterexample: the token `ref_05` embeds user 5's own identifier
(the digit string 05 parses to 5), passes the source's string-inequality
guard, and is honored: user 5's own referral count and points both grow,
refuting the claim that self-referral is rejected. -/
theorem self_referral_rejected_false : ¬ SelfReferralRejected := by
  intro h
  have h05 : strToNat? ("05".data) = some 5 := by
    have h0 : ('0' : Char).isDigit = true := by decide
    have hd : ('5' : Char).isDigit = true := by decide
    have ht : ('5' : Char).toNat - 48 = 5 := by decide
    have ht0 : ('0' : Char).toNat - 48 = 0 := by decide
    have hne : (['0', '5'] : Str) ≠ [] := by decide
    norm_num [strToNat?, h0, hd, ht, ht0, hne]
  obtain ⟨hr, hp⟩ :=
    h [] 5 ("05".data)
      [(5, { points := 10, referrals := 1, total_spent := 0, discount_available := false })]
      h05
      (by
        have h5 : natToStr 5 = ['5'] := rfl
        have h0 : ('0' : Char).isDigit = true := by decide
        have hd : ('5' : Char).isDigit = true := by decide
        have ht : ('5' : Char).toNat - 48 = 5 := by decide
        have ht0 : ('0' : Char).toNat - 48 = 0 := by decide
        have hne : (['0', '5'] : Str) ≠ [] := by decide
        norm_num [start, startReferral, ensureUser, hasUser, setUser, lookupUser,
          update_user_data, applyDeltas, freshAccount, strToNat?, h5, h0, hd, ht, ht0,
          hne, refTag, pyInt, REFERRAL_BONUS, POINTS_PER_SOL])
      5
  simp [lookupUser, freshAccount] at hr

/-- C10 (amended): self-referral through the canonical token, `ref_`
followed by `str(user.id)` exactly as the bot itself generates it, is
rejected: the start performs only the first-access account creation and
changes no referral count and no points.  (The guard is a string
comparison, so the counterexample's non-canonical spelling `ref_05` of the
same identifier is honored.) -/
theorem canonical_self_referral_rejected (users : Users) (uid : Nat) :
    start users uid [refTag ++ natToStr uid] = some (ensureUser users uid) := by
  have hlen : refTag.length = 4 := rfl
  have ht : (refTag ++ natToStr uid).take 4 = refTag := by
    rw [← hlen]
    exact List.take_left refTag (natToStr uid)
  have hd : (refTag ++ natToStr uid).drop 4 = natToStr uid := by
    rw [← hlen]
    exact List.drop_left refTag (natToStr uid)
  simp [start, startReferral, ht, hd]

end Coinbot
